import Mathlib

/-!
Shallow embedding of the astrbot_plugin_reread repeat-detection core.

Source files embedded:
- `src/main.py` : `GroupState` (per-type deque windows with maxlen, last
  repeated fingerprint), and `RereadPlugin` (`reread_handle`, `_can_repeat`,
  `_make_fingerprint`).
- `src/core/state.py` : a second `GroupState` storing fingerprints directly,
  and `StateManager` whose `_group_states` registry is a class attribute.

Python dicts are embedded as association lists (first-occurrence lookup),
`deque(maxlen=n)` as a list that keeps the last `n` elements on append,
runtime exceptions (`KeyError`, `IndexError`, `ValueError`) as an `Except`
error type, and the two `random.random()` draws as a stream `rng : Nat → Rat`
of values consumed in order (the result carries how many were consumed).
-/

/-- Runtime exceptions that the embedded Python code can raise. -/
inductive Err where
  | keyError (key : String)
  | indexError
  | valueError
deriving DecidableEq

/-- A single message segment, following the host platform's segment
abstraction (text content; image file-id / url / path; face id; any other
variant carries only its declared type tag). -/
inductive Seg where
  | plain (text : String)
  | image (file url path : String)
  | face (id : Int)
  | other (tag : String)
deriving DecidableEq

/-- `str(seg.type).split(".")[-1]` — the declared type discriminator of a
segment, as computed at `src/main.py:176`. -/
def segTypeOf : Seg → String
  | .plain _ => "Plain"
  | .image _ _ _ => "Image"
  | .face _ => "Face"
  | .other tag => tag

/-- Python `a or b` on strings: the empty string is falsy. -/
def pyOrStr (a b : String) : String :=
  if a = "" then b else a

/-- `RereadPlugin._make_fingerprint` (src/main.py:256-278): dispatch on the
segment variant; the catch-all branch uses the declared type string. -/
def make_fingerprint (segType : String) : Seg → String
  | .plain text => "text:" ++ text
  | .image file url path => "image:" ++ pyOrStr file (pyOrStr url path)
  | .face id => "face:" ++ toString id
  | .other _ => "unknown:" ++ segType

/-- One record of a group window (src/main.py `MsgRecord`). -/
structure MsgRecord where
  send_id : String
  seg : Seg
deriving DecidableEq

/-- One per-type deque: its `maxlen` (fixed at construction) and its
current contents, oldest first. -/
structure Buffer where
  maxlen : Int
  records : List MsgRecord
deriving DecidableEq

/-- First-occurrence lookup in an association list (Python dict read). -/
def alistGet {α : Type} : List (String × α) → String → Option α
  | [], _ => none
  | (k, v) :: rest, key => if k = key then some v else alistGet rest key

/-- Replace the value at the first occurrence of a key (mutating a value
reached through a Python dict lookup). -/
def alistSet {α : Type} : List (String × α) → String → α → List (String × α)
  | [], _, _ => []
  | (k, v) :: rest, key, newV =>
      if k = key then (k, newV) :: rest else (k, v) :: alistSet rest key newV

/-- `GroupState` of src/main.py: per-type windows plus the fingerprint of
the last successful repeat (the asyncio lock is not part of the data). -/
structure GroupState where
  messages : List (String × Buffer)
  last_repeated_fingerprint : Option String
deriving DecidableEq

/-- `GroupState.__init__` (src/main.py:43-54): one `deque(maxlen=limit)`
per configured type. `deque` raises `ValueError` when `maxlen` is
negative, so construction fails if any threshold is negative. -/
def GroupState.init (thresholds : List (String × Int)) : Except Err GroupState :=
  if thresholds.all (fun p => 0 ≤ p.2) then
    .ok { messages := thresholds.map (fun p => (p.1, { maxlen := p.2, records := [] }))
          last_repeated_fingerprint := none }
  else
    .error .valueError

/-- Append to a deque with the given `maxlen`: the oldest elements are
dropped so that at most `maxlen` remain. -/
def dequeAppend (maxlen : Int) (lst : List MsgRecord) (x : MsgRecord) : List MsgRecord :=
  let l := lst ++ [x]
  l.drop (l.length - maxlen.toNat)

/-- `GroupState.clear_if_same_sender` (src/main.py:58-73). Returns before
any dict access when `require_different_people` is false; otherwise indexes
`self.messages[seg_type]` (KeyError if absent) and clears that one buffer
when its last record's sender matches. -/
def GroupState.clear_if_same_sender (st : GroupState) (segType sendId : String)
    (requireDifferentPeople : Bool) : Except Err GroupState :=
  if requireDifferentPeople = false then .ok st
  else
    match alistGet st.messages segType with
    | none => .error (.keyError segType)
    | some b =>
      match b.records.getLast? with
      | none => .ok st
      | some lastRec =>
        if lastRec.send_id = sendId then
          .ok { st with messages := alistSet st.messages segType { b with records := [] } }
        else .ok st

/-- `GroupState.push_message` (src/main.py:75-89): append the record to the
deque for the type (KeyError if the type is not a key). -/
def GroupState.push_message (st : GroupState) (segType sendId : String)
    (seg : Seg) : Except Err GroupState :=
  match alistGet st.messages segType with
  | none => .error (.keyError segType)
  | some b =>
    .ok { st with
          messages := alistSet st.messages segType
            { b with records := dequeAppend b.maxlen b.records { send_id := sendId, seg := seg } } }

/-- `GroupState.get_messages` (src/main.py:91-95). -/
def GroupState.get_messages (st : GroupState) (segType : String) :
    Except Err (List MsgRecord) :=
  match alistGet st.messages segType with
  | none => .error (.keyError segType)
  | some b => .ok b.records

/-- `GroupState.clear_all` (src/main.py:97-103). -/
def GroupState.clear_all (st : GroupState) : GroupState :=
  { st with messages := st.messages.map (fun p => (p.1, { p.2 with records := [] })) }

/-- `GroupState.is_same_as_last_repeat` (src/main.py:107-112); in Python
`None == fingerprint` is `False`. -/
def GroupState.is_same_as_last_repeat (st : GroupState) (fp : String) : Bool :=
  st.last_repeated_fingerprint = some fp

/-- `GroupState.mark_repeated` (src/main.py:114-121). -/
def GroupState.mark_repeated (st : GroupState) (fp : String) : GroupState :=
  GroupState.clear_all { st with last_repeated_fingerprint := some fp }

/-- The plugin configuration values read by the detector. -/
structure Config where
  thresholds : List (String × Int)
  require_different_people : Bool
  repeat_probability : Rat
  interrupt_probability : Rat
  reread_group_whitelist : List String

/-- `self.supported_type = list(self.thresholds.keys())` (src/main.py:143). -/
def Config.supported_type (cfg : Config) : List String :=
  cfg.thresholds.map Prod.fst

/-- `RereadPlugin._can_repeat` (src/main.py:234-254): threshold lookup with
default 3, then the all-fingerprints-equal scan starting from
`msg_list[0]` (IndexError when the list is empty and the threshold is
already satisfied). -/
def can_repeat (thresholds : List (String × Int)) (segType : String)
    (msgList : List MsgRecord) : Except Err Bool :=
  let threshold := (alistGet thresholds segType).getD 3
  if (msgList.length : Int) < threshold then .ok false
  else
    match msgList with
    | [] => .error .indexError
    | m0 :: _ =>
      .ok (msgList.all (fun m =>
        make_fingerprint segType m.seg == make_fingerprint segType m0.seg))

/-- The fixed placeholder segment `Plain("打断！")` (src/main.py:222). -/
def interruptSeg : Seg := .plain "打断！"

/-- `RereadPlugin.reread_handle` (src/main.py:161-230), from the point
where a single-segment non-wake group message has been extracted. Returns
the updated group state, the output segment when a repeat triggers (`none`
when nothing is sent), and how many `random.random()` draws were consumed
from the stream `rng`. -/
def reread_handle (cfg : Config) (st : GroupState) (groupId sendId : String)
    (seg : Seg) (rng : Nat → Rat) : Except Err (GroupState × Option Seg × Nat) :=
  let segType := segTypeOf seg
  if (cfg.supported_type.contains segType) = false then .ok (st, none, 0)
  else if cfg.reread_group_whitelist ≠ [] ∧
          (cfg.reread_group_whitelist.contains groupId) = false then .ok (st, none, 0)
  else do
    let st1 ← st.clear_if_same_sender segType sendId cfg.require_different_people
    let st2 ← st1.push_message segType sendId seg
    let msgList ← st2.get_messages segType
    let can ← can_repeat cfg.thresholds segType msgList
    if can = false then .ok (st2, none, 0)
    else do
      let fp ← match msgList with
               | [] => .error Err.indexError
               | m0 :: _ => .ok (make_fingerprint segType m0.seg)
      if st2.is_same_as_last_repeat fp then .ok (st2, none, 0)
      else if cfg.repeat_probability ≤ rng 0 then .ok (st2, none, 1)
      else
        let outSeg := if rng 1 < cfg.interrupt_probability then interruptSeg else seg
        .ok (st2.mark_repeated fp, some outSeg, 2)

/-- Feed a sequence of inbound messages `(groupId, sendId, seg, rng)` to the
detector, threading the group state and collecting the output segments of
every trigger. An exception on any message aborts the whole run. -/
def feed_all (cfg : Config) : GroupState → List (String × String × Seg × (Nat → Rat)) →
    Except Err (GroupState × List Seg)
  | st, [] => .ok (st, [])
  | st, (g, s, seg, rng) :: rest => do
    let (st1, out, _) ← reread_handle cfg st g s seg rng
    let (stF, outs) ← feed_all cfg st1 rest
    .ok (stF, out.toList ++ outs)

/-- One record of `src/core/state.py`'s window: sender and fingerprint. -/
structure StRecord where
  send_id : String
  fp : String
deriving DecidableEq

/-- A per-type deque of `src/core/state.py`'s `GroupState`. -/
structure StBuffer where
  maxlen : Int
  records : List StRecord
deriving DecidableEq

/-- `GroupState` of `src/core/state.py` (stores fingerprints, not segments). -/
structure StGroupState where
  messages : List (String × StBuffer)
  last_repeated_fingerprint : Option String
deriving DecidableEq

/-- `GroupState.__init__` (src/core/state.py:22-32), same deque
construction as in src/main.py. -/
def StGroupState.init (thresholds : List (String × Int)) : Except Err StGroupState :=
  if thresholds.all (fun p => 0 ≤ p.2) then
    .ok { messages := thresholds.map (fun p => (p.1, { maxlen := p.2, records := [] }))
          last_repeated_fingerprint := none }
  else
    .error .valueError

/-- `StateManager` (src/core/state.py:102-118). Its `_group_states` mapping
is a class attribute: `self._group_states[gid] = ...` mutates the class
dict, so one registry is shared by every instance. The shared registry
is therefore embedded as an explicit value threaded separately from the
instances, and an insertion appends to it (Python dict insertion order). -/
structure StateManager where
  thresholds : List (String × Int)

/-- `StateManager.get_state` (src/core/state.py:112-118): return the
existing state for the group, or construct one from this instance's
thresholds and record it in the shared registry. -/
def StateManager.get_state (m : StateManager) (registry : List (String × StGroupState))
    (gid : String) : Except Err (StGroupState × List (String × StGroupState)) :=
  match alistGet registry gid with
  | some st => .ok (st, registry)
  | none => do
    let st ← StGroupState.init m.thresholds
    .ok (st, registry ++ [(gid, st)])

/-! ### Association-list lemmas -/

theorem alistGet_alistSet_same {α : Type} (m : List (String × α)) (k : String) (v : α)
    (h : (alistGet m k).isSome = true) : alistGet (alistSet m k v) k = some v := by
  induction m with
  | nil => simp [alistGet] at h
  | cons p rest ih =>
    obtain ⟨k0, v0⟩ := p
    by_cases hk : k0 = k
    · simp [alistGet, alistSet, hk]
    · simp [alistGet, alistSet, hk] at h ⊢
      exact ih h

theorem alistGet_alistSet_ne {α : Type} (m : List (String × α)) (k k' : String) (v : α)
    (h : k' ≠ k) : alistGet (alistSet m k v) k' = alistGet m k' := by
  induction m with
  | nil => simp [alistSet]
  | cons p rest ih =>
    obtain ⟨k0, v0⟩ := p
    by_cases hk : k0 = k
    · subst hk
      simp [alistGet, alistSet, Ne.symm h]
    · simp [alistGet, alistSet, hk]
      by_cases ht : k0 = k'
      · simp [ht]
      · simp [ht, ih]

theorem alistGet_alistSet_cases {α : Type} (m : List (String × α)) (k t : String)
    (v b : α) (h : alistGet (alistSet m k v) t = some b) :
    (t = k ∧ b = v) ∨ (t ≠ k ∧ alistGet m t = some b) := by
  by_cases ht : t = k
  · subst ht
    left
    refine ⟨rfl, ?_⟩
    induction m with
    | nil => simp [alistSet, alistGet] at h
    | cons p rest ih =>
      obtain ⟨k0, v0⟩ := p
      by_cases hk : k0 = t
      · simp [alistSet, alistGet, hk] at h
        exact h.symm
      · simp [alistSet, alistGet, hk] at h
        exact ih h
  · right
    rw [alistGet_alistSet_ne m k t v ht] at h
    exact ⟨ht, h⟩

theorem alistGet_map_snd {α β : Type} (g : α → β) (m : List (String × α)) (k : String) :
    alistGet (m.map (fun p => (p.1, g p.2))) k = (alistGet m k).map g := by
  induction m with
  | nil => simp [alistGet]
  | cons p rest ih =>
    obtain ⟨k0, v0⟩ := p
    by_cases hk : k0 = k
    · simp [alistGet, hk]
    · simp [alistGet, hk, ih]

theorem alistGet_append_right {α : Type} (m1 m2 : List (String × α)) (k : String)
    (h : alistGet m1 k = none) : alistGet (m1 ++ m2) k = alistGet m2 k := by
  induction m1 with
  | nil => simp
  | cons p rest ih =>
    obtain ⟨k0, v0⟩ := p
    by_cases hk : k0 = k
    · simp [alistGet, hk] at h
    · simp [alistGet, hk] at h ⊢
      exact ih h

theorem mem_dequeAppend (maxlen : Int) (lst : List MsgRecord) (x r : MsgRecord)
    (h : r ∈ dequeAppend maxlen lst x) : r ∈ lst ∨ r = x := by
  unfold dequeAppend at h
  have h2 : r ∈ lst ++ [x] := List.mem_of_mem_drop h
  rcases List.mem_append.mp h2 with h3 | h3
  · exact Or.inl h3
  · exact Or.inr (List.mem_singleton.mp h3)

theorem exceptOkBind {ε α β : Type} (a : α) (f : α → Except ε β) :
    (Except.ok (ε := ε) a >>= f) = f a := rfl

theorem exceptErrBind {ε α β : Type} (e : ε) (f : α → Except ε β) :
    (Except.error (α := α) e >>= f) = Except.error e := rfl

/-! ### Characterization of a committing run of the detector -/

theorem reread_handle_commit (cfg : Config) (st st1 st2 : GroupState) (g s : String)
    (seg : Seg) (rng : Nat → Rat) (msgList : List MsgRecord) (m0 : MsgRecord)
    (hsupp : cfg.supported_type.contains (segTypeOf seg) = true)
    (hwl : cfg.reread_group_whitelist = [] ∨ cfg.reread_group_whitelist.contains g = true)
    (h1 : st.clear_if_same_sender (segTypeOf seg) s cfg.require_different_people = .ok st1)
    (h2 : st1.push_message (segTypeOf seg) s seg = .ok st2)
    (h3 : st2.get_messages (segTypeOf seg) = .ok msgList)
    (hcan : can_repeat cfg.thresholds (segTypeOf seg) msgList = .ok true)
    (hhead : msgList.head? = some m0)
    (hidem : st2.is_same_as_last_repeat (make_fingerprint (segTypeOf seg) m0.seg) = false)
    (hp : rng 0 < cfg.repeat_probability) :
    reread_handle cfg st g s seg rng =
      .ok (st2.mark_repeated (make_fingerprint (segTypeOf seg) m0.seg),
           some (if rng 1 < cfg.interrupt_probability then interruptSeg else seg), 2) := by
  unfold reread_handle
  dsimp only
  rw [hsupp]
  simp only [Bool.true_eq_false, if_false]
  have hwl' : ¬ (cfg.reread_group_whitelist ≠ [] ∧
      (cfg.reread_group_whitelist.contains g) = false) := by
    rcases hwl with hw | hw
    · intro hc; exact hc.1 hw
    · intro hc; rw [hw] at hc; exact absurd hc.2 (by simp)
  rw [if_neg hwl']
  rw [h1]
  simp only [exceptOkBind]
  rw [h2]
  simp only [exceptOkBind]
  rw [h3]
  simp only [exceptOkBind]
  rw [hcan]
  simp only [exceptOkBind]
  rw [if_neg (by simp)]
  cases msgList with
  | nil => simp at hhead
  | cons mh rest =>
    have hm : mh = m0 := by simpa using hhead
    subst hm
    simp only [exceptOkBind]
    rw [hidem]
    simp only [Bool.false_eq_true, if_false]
    rw [if_neg (not_le.mpr hp)]

/-! ### C1 -/

/-- Claim C1: for every group window whose type-buffer has reached its
threshold with all records carrying the same fingerprint (the
threshold+consistency check succeeds after the sender-guard and the push of
the incoming message), if `repeat_probability = 1` and
`interrupt_probability = 0` and the candidate fingerprint differs from the
last triggered fingerprint, then processing the message triggers for every
value of the random stream (all draws lie in `[0,1)`), and the returned
output segment is the original triggering message content. -/
theorem c1_deterministic_trigger (cfg : Config) (st st1 st2 : GroupState) (g s : String)
    (seg : Seg) (rng : Nat → Rat) (msgList : List MsgRecord) (m0 : MsgRecord)
    (hprob : cfg.repeat_probability = 1)
    (hint : cfg.interrupt_probability = 0)
    (hrng : ∀ i, 0 ≤ rng i ∧ rng i < 1)
    (hsupp : cfg.supported_type.contains (segTypeOf seg) = true)
    (hwl : cfg.reread_group_whitelist = [] ∨ cfg.reread_group_whitelist.contains g = true)
    (h1 : st.clear_if_same_sender (segTypeOf seg) s cfg.require_different_people = .ok st1)
    (h2 : st1.push_message (segTypeOf seg) s seg = .ok st2)
    (h3 : st2.get_messages (segTypeOf seg) = .ok msgList)
    (hcan : can_repeat cfg.thresholds (segTypeOf seg) msgList = .ok true)
    (hhead : msgList.head? = some m0)
    (hidem : st2.is_same_as_last_repeat (make_fingerprint (segTypeOf seg) m0.seg) = false) :
    reread_handle cfg st g s seg rng =
      .ok (st2.mark_repeated (make_fingerprint (segTypeOf seg) m0.seg), some seg, 2) := by
  have hp : rng 0 < cfg.repeat_probability := by
    rw [hprob]; exact (hrng 0).2
  have hcommit := reread_handle_commit cfg st st1 st2 g s seg rng msgList m0
    hsupp hwl h1 h2 h3 hcan hhead hidem hp
  rw [hcommit, if_neg]
  rw [hint]
  exact not_lt.mpr (hrng 1).1

/-- Configuration of the concrete trigger scenario: threshold 3 for text,
different senders required, repeat probability 1, interrupt probability 0. -/
def cfgW : Config :=
  { thresholds := [("Plain", 3)], require_different_people := true,
    repeat_probability := 1, interrupt_probability := 0, reread_group_whitelist := [] }

/-- Window holding "hi" from senders A and B. -/
def stW0 : GroupState :=
  { messages := [("Plain",
      { maxlen := 3,
        records := [{ send_id := "A", seg := .plain "hi" },
                    { send_id := "B", seg := .plain "hi" }] })],
    last_repeated_fingerprint := none }

/-- The same window after C's "hi" is pushed. -/
def stW2 : GroupState :=
  { messages := [("Plain",
      { maxlen := 3,
        records := [{ send_id := "A", seg := .plain "hi" },
                    { send_id := "B", seg := .plain "hi" },
                    { send_id := "C", seg := .plain "hi" }] })],
    last_repeated_fingerprint := none }

theorem c1_deterministic_trigger_witness :
    reread_handle cfgW stW0 "g" "C" (.plain "hi") (fun _ => 0) =
      .ok (stW2.mark_repeated (make_fingerprint (segTypeOf (.plain "hi"))
             (MsgRecord.mk "A" (.plain "hi")).seg), some (.plain "hi"), 2) :=
  c1_deterministic_trigger cfgW stW0 stW0 stW2 "g" "C" (.plain "hi") (fun _ => 0)
    [{ send_id := "A", seg := .plain "hi" }, { send_id := "B", seg := .plain "hi" },
     { send_id := "C", seg := .plain "hi" }] (MsgRecord.mk "A" (.plain "hi"))
    rfl rfl (fun _ => ⟨le_refl 0, by norm_num⟩) rfl (Or.inl rfl)
    rfl rfl rfl rfl rfl rfl

/-! ### C9 -/

/-- Claim C9: when a trigger commits with an interrupt output (the
placeholder is returned instead of the echoed content), the state still
records the fingerprint of the original repeated content, not of the
placeholder, so the same content remains blocked by the idempotency check
even though it was never actually echoed. -/
theorem c9_interrupt_records_original (cfg : Config) (st st1 st2 : GroupState) (g s : String)
    (seg : Seg) (rng : Nat → Rat) (msgList : List MsgRecord) (m0 : MsgRecord)
    (hsupp : cfg.supported_type.contains (segTypeOf seg) = true)
    (hwl : cfg.reread_group_whitelist = [] ∨ cfg.reread_group_whitelist.contains g = true)
    (h1 : st.clear_if_same_sender (segTypeOf seg) s cfg.require_different_people = .ok st1)
    (h2 : st1.push_message (segTypeOf seg) s seg = .ok st2)
    (h3 : st2.get_messages (segTypeOf seg) = .ok msgList)
    (hcan : can_repeat cfg.thresholds (segTypeOf seg) msgList = .ok true)
    (hhead : msgList.head? = some m0)
    (hidem : st2.is_same_as_last_repeat (make_fingerprint (segTypeOf seg) m0.seg) = false)
    (hp : rng 0 < cfg.repeat_probability)
    (hi : rng 1 < cfg.interrupt_probability) :
    reread_handle cfg st g s seg rng =
      .ok (st2.mark_repeated (make_fingerprint (segTypeOf seg) m0.seg), some interruptSeg, 2) ∧
    (st2.mark_repeated (make_fingerprint (segTypeOf seg) m0.seg)).last_repeated_fingerprint
      = some (make_fingerprint (segTypeOf seg) m0.seg) ∧
    (st2.mark_repeated (make_fingerprint (segTypeOf seg) m0.seg)).is_same_as_last_repeat
      (make_fingerprint (segTypeOf seg) m0.seg) = true ∧
    (make_fingerprint (segTypeOf seg) m0.seg ≠ make_fingerprint "Plain" interruptSeg →
      (st2.mark_repeated (make_fingerprint (segTypeOf seg) m0.seg)).last_repeated_fingerprint
        ≠ some (make_fingerprint "Plain" interruptSeg)) := by
  have hcommit := reread_handle_commit cfg st st1 st2 g s seg rng msgList m0
    hsupp hwl h1 h2 h3 hcan hhead hidem hp
  refine ⟨?_, rfl, ?_, ?_⟩
  · rw [hcommit, if_pos hi]
  · simp [GroupState.is_same_as_last_repeat, GroupState.mark_repeated, GroupState.clear_all]
  · intro hne
    simp [GroupState.mark_repeated, GroupState.clear_all]
    exact fun hc => hne hc

/-- Configuration for the interrupt scenario: trigger always, interrupt
always. -/
def cfgI : Config :=
  { cfgW with interrupt_probability := 1 }

theorem c9_interrupt_records_original_witness :
    reread_handle cfgI stW0 "g" "C" (.plain "hi") (fun _ => 0) =
      .ok (stW2.mark_repeated (make_fingerprint (segTypeOf (.plain "hi"))
             (MsgRecord.mk "A" (.plain "hi")).seg), some interruptSeg, 2) ∧
    (stW2.mark_repeated (make_fingerprint (segTypeOf (.plain "hi"))
        (MsgRecord.mk "A" (.plain "hi")).seg)).last_repeated_fingerprint
      = some (make_fingerprint (segTypeOf (.plain "hi")) (MsgRecord.mk "A" (.plain "hi")).seg) ∧
    (stW2.mark_repeated (make_fingerprint (segTypeOf (.plain "hi"))
        (MsgRecord.mk "A" (.plain "hi")).seg)).is_same_as_last_repeat
      (make_fingerprint (segTypeOf (.plain "hi")) (MsgRecord.mk "A" (.plain "hi")).seg) = true ∧
    (make_fingerprint (segTypeOf (.plain "hi")) (MsgRecord.mk "A" (.plain "hi")).seg
        ≠ make_fingerprint "Plain" interruptSeg →
      (stW2.mark_repeated (make_fingerprint (segTypeOf (.plain "hi"))
          (MsgRecord.mk "A" (.plain "hi")).seg)).last_repeated_fingerprint
        ≠ some (make_fingerprint "Plain" interruptSeg)) :=
  c9_interrupt_records_original cfgI stW0 stW0 stW2 "g" "C" (.plain "hi") (fun _ => 0)
    [{ send_id := "A", seg := .plain "hi" }, { send_id := "B", seg := .plain "hi" },
     { send_id := "C", seg := .plain "hi" }] (MsgRecord.mk "A" (.plain "hi"))
    rfl (Or.inl rfl) rfl rfl rfl rfl rfl rfl (by norm_num [cfgI, cfgW]) (by norm_num [cfgI, cfgW])

/-! ### C4 -/

/-- Claim C4: the fingerprint function is total over all segment variants
and returns "text:"+content for text, "image:"+the first non-empty of
file-id/url/path for images (exactly "image:" when all three are empty),
"face:"+the stringified face id for faces, and "unknown:"+the declared type
tag for every other variant. The five conjuncts cover every constructor of
`Seg`, so totality holds by case exhaustion. -/
theorem c4_fingerprint_cases (segType text file url path tag : String) (id : Int) :
    make_fingerprint segType (Seg.plain text) = "text:" ++ text ∧
    make_fingerprint segType (Seg.image file url path) =
      "image:" ++ (if file ≠ "" then file else if url ≠ "" then url else path) ∧
    make_fingerprint segType (Seg.image "" "" "") = "image:" ∧
    make_fingerprint segType (Seg.face id) = "face:" ++ toString id ∧
    make_fingerprint (segTypeOf (Seg.other tag)) (Seg.other tag) = "unknown:" ++ tag := by
  refine ⟨rfl, ?_, ?_, rfl, rfl⟩
  · simp only [make_fingerprint, pyOrStr]
    split_ifs <;> simp_all
  · simp [make_fingerprint, pyOrStr]

/-! ### C3 -/

/-- Configuration with a zero threshold for text segments. -/
def cfgZero : Config :=
  { thresholds := [("Plain", 0)], require_different_people := false,
    repeat_probability := 1, interrupt_probability := 0, reread_group_whitelist := [] }

/-- The group state constructed from the zero-threshold configuration:
an always-empty window for "Plain". -/
def stZero : GroupState :=
  { messages := [("Plain", { maxlen := 0, records := [] })],
    last_repeated_fingerprint := none }

/-- Claim C3 is violated by the code (code_bug): with a configured
threshold of 0 the state is constructed (a `deque(maxlen=0)` that keeps
nothing), but `_can_repeat` then evaluates `msg_list[0]` on the empty
window — `0 < 0` is false, so the threshold branch does not return — and
an IndexError propagates out of the detector; with a negative threshold,
`deque(maxlen=-1)` raises ValueError during construction. The code clamps
nothing. -/
theorem c3_zero_threshold_raises :
    GroupState.init [("Plain", 0)] = .ok stZero ∧
    reread_handle cfgZero stZero "g" "A" (Seg.plain "hi") (fun _ => 0) =
      .error .indexError ∧
    GroupState.init [("Plain", -1)] = .error .valueError :=
  ⟨rfl, rfl, rfl⟩

/-! ### C10 -/

/-- Claim C10: the `StateManager` registry is shared by every instance
(a class attribute); after `m1.get_state` has produced the state for a
group — constructing it with `m1`'s thresholds when the group was absent —
`m2.get_state` on the same group returns that same state and leaves the
registry unchanged, instead of constructing one with `m2`'s thresholds. -/
theorem c10_registry_shared (m1 m2 : StateManager)
    (reg reg' : List (String × StGroupState)) (gid : String) (st : StGroupState)
    (h : m1.get_state reg gid = .ok (st, reg')) :
    m2.get_state reg' gid = .ok (st, reg') ∧
    (alistGet reg gid = none → StGroupState.init m1.thresholds = .ok st) := by
  unfold StateManager.get_state at h ⊢
  cases hg : alistGet reg gid with
  | some st0 =>
    rw [hg] at h
    injection h with h'
    injection h' with hst hreg
    subst hst
    subst hreg
    rw [hg]
    exact ⟨rfl, fun hc => Option.noConfusion hc⟩
  | none =>
    rw [hg] at h
    cases hi : StGroupState.init m1.thresholds with
    | error e => rw [hi, exceptErrBind] at h; cases h
    | ok st0 =>
      rw [hi, exceptOkBind] at h
      injection h with h'
      injection h' with hst hreg
      subst hst
      subst hreg
      have hlook : alistGet (reg ++ [(gid, st0)]) gid = some st0 := by
        rw [alistGet_append_right reg [(gid, st0)] gid hg]
        simp [alistGet]
      rw [hlook]
      exact ⟨rfl, fun _ => rfl⟩

/-- The state constructed by the first manager in the sharing scenario. -/
def stM1 : StGroupState :=
  { messages := [("Plain", { maxlen := 3, records := [] })],
    last_repeated_fingerprint := none }

theorem c10_registry_shared_witness :
    StateManager.get_state { thresholds := [("Plain", 5)] } [("g1", stM1)] "g1" =
      .ok (stM1, [("g1", stM1)]) ∧
    (alistGet ([] : List (String × StGroupState)) "g1" = none →
      StGroupState.init [("Plain", 3)] = .ok stM1) :=
  c10_registry_shared { thresholds := [("Plain", 3)] } { thresholds := [("Plain", 5)] }
    [] [("g1", stM1)] "g1" stM1 rfl

/-! ### C7 -/

/-- Claim C7: `clear_if_same_sender` is a no-op when
`require_different_people` is false (the method returns before any buffer
access); when it is true it clears exactly the given type's buffer when
that buffer is non-empty and its last record's sender equals the incoming
sender, and otherwise changes nothing; in the clearing case every other
type's buffer and the last-repeated fingerprint are unchanged. -/
theorem c7_clear_if_same_sender_frame (st : GroupState) (t s : String) (req : Bool)
    (b : Buffer) (hb : alistGet st.messages t = some b) :
    st.clear_if_same_sender t s false = .ok st ∧
    st.clear_if_same_sender t s req =
      .ok (if (req && b.records.getLast?.any fun r => r.send_id == s) = true
           then { st with messages := alistSet st.messages t { b with records := [] } }
           else st) ∧
    (∀ t', t' ≠ t →
      alistGet (alistSet st.messages t { b with records := [] }) t' =
        alistGet st.messages t') ∧
    ({ st with messages := alistSet st.messages t { b with records := [] }
       } : GroupState).last_repeated_fingerprint = st.last_repeated_fingerprint := by
  refine ⟨by simp [GroupState.clear_if_same_sender], ?_, ?_, rfl⟩
  · cases req with
    | false => simp [GroupState.clear_if_same_sender]
    | true =>
      simp only [GroupState.clear_if_same_sender, Bool.true_eq_false, if_false, hb,
        Bool.true_and]
      cases hl : b.records.getLast? with
      | none => simp [Option.any]
      | some r =>
        by_cases hs : r.send_id = s
        · simp [Option.any, hs]
        · simp [Option.any, hs]
  · intro t' ht'
    exact alistGet_alistSet_ne st.messages t t' _ ht'

/-- The last-pushed text records of the C7 scenario window. -/
def bufC7 : Buffer :=
  { maxlen := 3,
    records := [{ send_id := "B", seg := .plain "x" },
                { send_id := "A", seg := .plain "x" }] }

/-- A window for text and image types where the last text record is from
sender "A". -/
def stC7 : GroupState :=
  { messages := [("Plain", bufC7),
     ("Image", { maxlen := 2, records := [{ send_id := "C", seg := .image "f" "" "" }] })],
    last_repeated_fingerprint := some "text:z" }

theorem c7_clear_if_same_sender_frame_witness :
    stC7.clear_if_same_sender "Plain" "A" false = .ok stC7 ∧
    stC7.clear_if_same_sender "Plain" "A" true =
      .ok (if (true && bufC7.records.getLast?.any fun r => r.send_id == "A") = true
           then { stC7 with messages := (alistSet stC7.messages "Plain"
                    { bufC7 with records := [] }) }
           else stC7) ∧
    (∀ t', t' ≠ "Plain" →
      alistGet (alistSet stC7.messages "Plain" { bufC7 with records := [] }) t' =
        alistGet stC7.messages t') ∧
    ({ stC7 with messages := (alistSet stC7.messages "Plain" { bufC7 with records := [] })
       } : GroupState).last_repeated_fingerprint = stC7.last_repeated_fingerprint :=
  c7_clear_if_same_sender_frame stC7 "Plain" "A" true bufC7 rfl

/-! ### C8 -/

theorem clear_if_same_sender_ok (st : GroupState) (t s : String) (req : Bool)
    (h : (alistGet st.messages t).isSome = true) :
    ∃ st1, st.clear_if_same_sender t s req = .ok st1 ∧
      (alistGet st1.messages t).isSome = true ∧
      st1.last_repeated_fingerprint = st.last_repeated_fingerprint := by
  cases req with
  | false => exact ⟨st, by simp [GroupState.clear_if_same_sender], h, rfl⟩
  | true =>
    cases hg : alistGet st.messages t with
    | none => rw [hg] at h; cases h
    | some b =>
      cases hl : b.records.getLast? with
      | none => exact ⟨st, by simp [GroupState.clear_if_same_sender, hg, hl], h, rfl⟩
      | some r =>
        by_cases hs : r.send_id = s
        · refine ⟨{ st with messages := (alistSet st.messages t { b with records := [] }) },
            by simp [GroupState.clear_if_same_sender, hg, hl, hs], ?_, rfl⟩
          show (alistGet (alistSet st.messages t { b with records := [] }) t).isSome = true
          rw [alistGet_alistSet_same st.messages t _ h]
          rfl
        · exact ⟨st, by simp [GroupState.clear_if_same_sender, hg, hl, hs], h, rfl⟩

theorem push_message_ok (st : GroupState) (t s : String) (seg : Seg)
    (h : (alistGet st.messages t).isSome = true) :
    ∃ st2, st.push_message t s seg = .ok st2 ∧
      (alistGet st2.messages t).isSome = true := by
  cases hg : alistGet st.messages t with
  | none => rw [hg] at h; cases h
  | some b =>
    refine ⟨{ st with messages := (alistSet st.messages t
        { b with records := dequeAppend b.maxlen b.records { send_id := s, seg := seg } }) },
      by simp [GroupState.push_message, hg], ?_⟩
    show (alistGet (alistSet st.messages t
      { b with records := dequeAppend b.maxlen b.records { send_id := s, seg := seg } }) t).isSome = true
    rw [alistGet_alistSet_same st.messages t _ h]
    rfl

theorem get_messages_ok (st : GroupState) (t : String)
    (h : (alistGet st.messages t).isSome = true) :
    ∃ l, st.get_messages t = .ok l := by
  cases hg : alistGet st.messages t with
  | none => rw [hg] at h; cases h
  | some b => exact ⟨b.records, by simp [GroupState.get_messages, hg]⟩

theorem can_repeat_error_eq (th : List (String × Int)) (t : String)
    (l : List MsgRecord) (e : Err) (h : can_repeat th t l = .error e) :
    e = .indexError := by
  unfold can_repeat at h
  dsimp only at h
  by_cases hlt : (l.length : Int) < (alistGet th t).getD 3
  · rw [if_pos hlt] at h; cases h
  · rw [if_neg hlt] at h
    cases l with
    | nil => injection h with he; exact he.symm
    | cons m rest => cases h

/-- Claim C8: every buffer operation indexes the per-type map directly and
fails with a KeyError for a type absent from the configured windows; under
the detector's gate precondition (the segment type is among the supported
types, whose windows exist in the state), any error the detector raises is
an IndexError — the KeyError branch is unreachable. -/
theorem c8_keyerror_guarded (st : GroupState) (cfg : Config) (t s g : String)
    (seg : Seg) (rng : Nat → Rat)
    (habs : alistGet st.messages t = none)
    (hwf : ∀ t', cfg.supported_type.contains t' = true →
      (alistGet st.messages t').isSome = true) :
    st.clear_if_same_sender t s true = .error (.keyError t) ∧
    st.push_message t s seg = .error (.keyError t) ∧
    st.get_messages t = .error (.keyError t) ∧
    (∀ e, reread_handle cfg st g s seg rng = .error e → e = .indexError) := by
  refine ⟨by simp [GroupState.clear_if_same_sender, habs],
          by simp [GroupState.push_message, habs],
          by simp [GroupState.get_messages, habs], ?_⟩
  intro e he
  unfold reread_handle at he
  dsimp only at he
  by_cases hsupp : cfg.supported_type.contains (segTypeOf seg) = false
  · rw [if_pos hsupp] at he; cases he
  · rw [if_neg hsupp] at he
    by_cases hwl2 : cfg.reread_group_whitelist ≠ [] ∧
        (cfg.reread_group_whitelist.contains g) = false
    · rw [if_pos hwl2] at he; cases he
    · rw [if_neg hwl2] at he
      have hsome : (alistGet st.messages (segTypeOf seg)).isSome = true :=
        hwf _ (by simpa using hsupp)
      obtain ⟨st1, hc1, hs1, _⟩ :=
        clear_if_same_sender_ok st (segTypeOf seg) s cfg.require_different_people hsome
      rw [hc1, exceptOkBind] at he
      obtain ⟨st2, hc2, hs2⟩ := push_message_ok st1 (segTypeOf seg) s seg hs1
      rw [hc2, exceptOkBind] at he
      obtain ⟨l, hc3⟩ := get_messages_ok st2 (segTypeOf seg) hs2
      rw [hc3, exceptOkBind] at he
      cases hcr : can_repeat cfg.thresholds (segTypeOf seg) l with
      | error e2 =>
        rw [hcr, exceptErrBind] at he
        injection he with he2
        rw [← he2]
        exact can_repeat_error_eq _ _ _ _ hcr
      | ok cb =>
        rw [hcr, exceptOkBind] at he
        by_cases hcb : cb = false
        · rw [if_pos hcb] at he; cases he
        · rw [if_neg hcb] at he
          cases l with
          | nil =>
            simp only [exceptErrBind] at he
            injection he with he2
            exact he2.symm
          | cons m rest =>
            simp only [exceptOkBind] at he
            split at he
            · cases he
            · split at he
              · cases he
              · cases he

theorem c8_keyerror_guarded_witness :
    stC7.clear_if_same_sender "Video" "A" true = .error (.keyError "Video") ∧
    stC7.push_message "Video" "A" (.plain "hi") = .error (.keyError "Video") ∧
    stC7.get_messages "Video" = .error (.keyError "Video") ∧
    (∀ e, reread_handle cfgW stC7 "g" "A" (.plain "hi") (fun _ => 0) = .error e →
      e = .indexError) :=
  c8_keyerror_guarded stC7 cfgW "Video" "A" "g" (.plain "hi") (fun _ => 0) rfl
    (by
      intro t' ht'
      have ht : t' = "Plain" := by
        simpa [cfgW, Config.supported_type] using ht'
      subst ht
      rfl)

/-! ### C6 -/

/-- Claim C6: in every processed message exactly one random value is
consumed when the repeat-probability gate fails and exactly two when a
trigger commits; the second (interrupt) draw never occurs without a
commit, and whenever the first draw is consumed at all (threshold,
consistency and idempotency checks passed) the message triggers exactly
when that draw is below the configured repeat probability. -/
theorem c6_random_draw_discipline (cfg : Config) (st st' : GroupState) (g s : String)
    (seg : Seg) (rng : Nat → Rat) (out : Option Seg) (k : Nat)
    (h : reread_handle cfg st g s seg rng = .ok (st', out, k)) :
    (out.isSome = true → k = 2) ∧
    (out = none → k ≤ 1) ∧
    (1 ≤ k → (out.isSome = true ↔ rng 0 < cfg.repeat_probability)) := by
  unfold reread_handle at h
  dsimp only at h
  by_cases hsupp : cfg.supported_type.contains (segTypeOf seg) = false
  · rw [if_pos hsupp] at h; cases h; simp
  · rw [if_neg hsupp] at h
    by_cases hwl : cfg.reread_group_whitelist ≠ [] ∧
        (cfg.reread_group_whitelist.contains g) = false
    · rw [if_pos hwl] at h; cases h; simp
    · rw [if_neg hwl] at h
      cases h1 : st.clear_if_same_sender (segTypeOf seg) s cfg.require_different_people with
      | error e => rw [h1, exceptErrBind] at h; cases h
      | ok st1 =>
        rw [h1, exceptOkBind] at h
        cases h2 : st1.push_message (segTypeOf seg) s seg with
        | error e => rw [h2, exceptErrBind] at h; cases h
        | ok st2 =>
          rw [h2, exceptOkBind] at h
          cases h3 : st2.get_messages (segTypeOf seg) with
          | error e => rw [h3, exceptErrBind] at h; cases h
          | ok msgList =>
            rw [h3, exceptOkBind] at h
            cases h4 : can_repeat cfg.thresholds (segTypeOf seg) msgList with
            | error e => rw [h4, exceptErrBind] at h; cases h
            | ok can =>
              rw [h4, exceptOkBind] at h
              by_cases hcan : can = false
              · rw [if_pos hcan] at h; cases h; simp
              · rw [if_neg hcan] at h
                cases msgList with
                | nil => simp only [exceptErrBind] at h; cases h
                | cons m0 rest =>
                  simp only [exceptOkBind] at h
                  by_cases hidem : st2.is_same_as_last_repeat
                      (make_fingerprint (segTypeOf seg) m0.seg) = true
                  · rw [if_pos hidem] at h; cases h; simp
                  · rw [if_neg hidem] at h
                    by_cases hp : cfg.repeat_probability ≤ rng 0
                    · rw [if_pos hp] at h; cases h
                      refine ⟨by simp, fun _ => le_refl 1, fun _ => ?_⟩
                      simp [not_lt.mpr hp]
                    · rw [if_neg hp] at h; cases h
                      refine ⟨fun _ => rfl, by simp, fun _ => ?_⟩
                      simp [not_le.mp hp]

theorem c6_random_draw_discipline_witness :
    ((some (Seg.plain "hi")).isSome = true → 2 = 2) ∧
    (some (Seg.plain "hi") = none → 2 ≤ 1) ∧
    (1 ≤ 2 → ((some (Seg.plain "hi")).isSome = true ↔
      (fun _ : Nat => (0 : Rat)) 0 < cfgW.repeat_probability)) :=
  c6_random_draw_discipline cfgW stW0 (stW2.mark_repeated "text:hi") "g" "C"
    (.plain "hi") (fun _ => 0) (some (.plain "hi")) 2 rfl

/-! ### C5 -/

/-- The group-window operations named by the claim. -/
inductive WinOp where
  | clearIfSameSender (segType sendId : String) (req : Bool)
  | push (segType sendId : String) (seg : Seg)
  | clearAll
  | markTriggered (fp : String)

/-- Run one window operation. -/
def applyOp (st : GroupState) : WinOp → Except Err GroupState
  | .clearIfSameSender t s r => st.clear_if_same_sender t s r
  | .push t s seg => st.push_message t s seg
  | .clearAll => .ok st.clear_all
  | .markTriggered fp => .ok (st.mark_repeated fp)

/-- Run a sequence of window operations. -/
def applyOps : GroupState → List WinOp → Except Err GroupState
  | st, [] => .ok st
  | st, op :: rest => do applyOps (← applyOp st op) rest

/-- Every buffer's maxlen is the configured threshold of its type, is
non-negative, and bounds the buffer length. -/
def capInv (thresholds : List (String × Int)) (st : GroupState) : Prop :=
  ∀ t b, alistGet st.messages t = some b →
    alistGet thresholds t = some b.maxlen ∧ 0 ≤ b.maxlen ∧
      (b.records.length : Int) ≤ b.maxlen

theorem alistGet_mem {α : Type} (m : List (String × α)) (k : String) (v : α)
    (h : alistGet m k = some v) : (k, v) ∈ m := by
  induction m with
  | nil => cases h
  | cons p rest ih =>
    obtain ⟨k0, v0⟩ := p
    by_cases hk : k0 = k
    · subst hk
      simp [alistGet] at h
      subst h
      exact List.mem_cons_self _ _
    · simp [alistGet, hk] at h
      exact List.mem_cons_of_mem _ (ih h)

theorem alistGet_init_messages (th : List (String × Int)) (t : String) :
    alistGet (th.map (fun p => (p.1, Buffer.mk p.2 []))) t =
      (alistGet th t).map (fun v => Buffer.mk v []) := by
  induction th with
  | nil => simp [alistGet]
  | cons p rest ih =>
    obtain ⟨k0, v0⟩ := p
    by_cases hk : k0 = t
    · simp [alistGet, hk]
    · simp [alistGet, hk, ih]

theorem alistGet_clear_messages (m : List (String × Buffer)) (t : String) :
    alistGet (m.map (fun p => (p.1, { p.2 with records := [] }))) t =
      (alistGet m t).map (fun b => { b with records := [] }) := by
  induction m with
  | nil => simp [alistGet]
  | cons p rest ih =>
    obtain ⟨k0, v0⟩ := p
    by_cases hk : k0 = t
    · simp [alistGet, hk]
    · simp [alistGet, hk, ih]

theorem dequeAppend_length_le (maxlen : Int) (l : List MsgRecord) (x : MsgRecord)
    (h : 0 ≤ maxlen) : ((dequeAppend maxlen l x).length : Int) ≤ maxlen := by
  unfold dequeAppend
  rw [List.length_drop]
  have h2 : (l ++ [x]).length - ((l ++ [x]).length - maxlen.toNat) ≤ maxlen.toNat := by
    omega
  calc (((l ++ [x]).length - ((l ++ [x]).length - maxlen.toNat) : Nat) : Int)
      ≤ (maxlen.toNat : Int) := by exact_mod_cast h2
    _ = maxlen := Int.toNat_of_nonneg h

theorem capInv_init (th : List (String × Int)) (st : GroupState)
    (h : GroupState.init th = .ok st) : capInv th st := by
  unfold GroupState.init at h
  split at h
  case isTrue hall =>
    injection h with h'
    subst h'
    intro t b hb
    simp only at hb
    rw [alistGet_init_messages] at hb
    cases hg : alistGet th t with
    | none => rw [hg] at hb; cases hb
    | some v =>
      rw [hg] at hb
      injection hb with hb'
      subst hb'
      have hmem := alistGet_mem th t v hg
      have hv : 0 ≤ v := by
        have hx := List.all_eq_true.mp hall _ hmem
        exact of_decide_eq_true hx
      exact ⟨rfl, hv, by simpa using hv⟩
  case isFalse => cases h

theorem capInv_set (th : List (String × Int)) (st : GroupState) (t : String)
    (b : Buffer) (newRecords : List MsgRecord)
    (hinv : capInv th st) (hb : alistGet st.messages t = some b)
    (hlen : (newRecords.length : Int) ≤ b.maxlen) :
    capInv th { st with messages :=
      (alistSet st.messages t { b with records := newRecords }) } := by
  intro t' b' hb'
  rcases alistGet_alistSet_cases st.messages t t' _ b' hb' with ⟨ht, hbv⟩ | ⟨_, hg⟩
  · subst ht
    subst hbv
    obtain ⟨h1, h2, _⟩ := hinv t' b hb
    exact ⟨h1, h2, hlen⟩
  · exact hinv t' b' hg

theorem capInv_clear_all (th : List (String × Int)) (st : GroupState)
    (h : capInv th st) : capInv th st.clear_all := by
  intro t b hb
  unfold GroupState.clear_all at hb
  simp only at hb
  rw [alistGet_clear_messages] at hb
  cases hg : alistGet st.messages t with
  | none => rw [hg] at hb; cases hb
  | some b0 =>
    rw [hg] at hb
    injection hb with hb'
    subst hb'
    obtain ⟨h1, h2, _⟩ := h t b0 hg
    exact ⟨h1, h2, by simpa using h2⟩

theorem capInv_applyOp (th : List (String × Int)) (st st' : GroupState) (op : WinOp)
    (hinv : capInv th st) (h : applyOp st op = .ok st') : capInv th st' := by
  cases op with
  | clearIfSameSender t s req =>
    unfold applyOp GroupState.clear_if_same_sender at h
    cases req with
    | false => injection h with h'; subst h'; exact hinv
    | true =>
      simp only [Bool.true_eq_false, if_false] at h
      cases hg : alistGet st.messages t with
      | none => rw [hg] at h; cases h
      | some b =>
        rw [hg] at h
        dsimp only at h
        cases hl : b.records.getLast? with
        | none => rw [hl] at h; injection h with h'; subst h'; exact hinv
        | some r =>
          rw [hl] at h
          dsimp only at h
          by_cases hs : r.send_id = s
          · rw [if_pos hs] at h
            injection h with h'
            subst h'
            exact capInv_set th st t b [] hinv hg (by simpa using (hinv t b hg).2.1)
          · rw [if_neg hs] at h; injection h with h'; subst h'; exact hinv
  | push t s seg =>
    unfold applyOp GroupState.push_message at h
    dsimp only at h
    cases hg : alistGet st.messages t with
    | none => rw [hg] at h; cases h
    | some b =>
      rw [hg] at h
      dsimp only at h
      injection h with h'
      subst h'
      exact capInv_set th st t b _ hinv hg
        (dequeAppend_length_le b.maxlen b.records _ (hinv t b hg).2.1)
  | clearAll =>
    unfold applyOp at h
    injection h with h'
    subst h'
    exact capInv_clear_all th st hinv
  | markTriggered fp =>
    unfold applyOp GroupState.mark_repeated at h
    injection h with h'
    subst h'
    exact capInv_clear_all th { st with last_repeated_fingerprint := some fp } hinv

theorem capInv_applyOps (th : List (String × Int)) :
    ∀ (ops : List WinOp) (st st' : GroupState), capInv th st →
      applyOps st ops = .ok st' → capInv th st'
  | [], st, st', hinv, h => by injection h with h'; subst h'; exact hinv
  | op :: rest, st, st', hinv, h => by
    cases ha : applyOp st op with
    | error e =>
      unfold applyOps at h
      rw [ha, exceptErrBind] at h
      cases h
    | ok st1 =>
      unfold applyOps at h
      rw [ha, exceptOkBind] at h
      exact capInv_applyOps th rest st1 st' (capInv_applyOp th st st1 op hinv ha) h

theorem dequeAppend_full (b : Buffer) (x : MsgRecord)
    (hfull : (b.records.length : Int) = b.maxlen) (hpos : 1 ≤ b.maxlen) :
    dequeAppend b.maxlen b.records x = b.records.drop 1 ++ [x] := by
  unfold dequeAppend
  dsimp only
  have h1 : 1 ≤ b.records.length := by omega
  have h2 : (b.records ++ [x]).length - b.maxlen.toNat = 1 := by
    rw [List.length_append]
    simp only [List.length_singleton]
    omega
  rw [h2]
  exact List.drop_append_of_le_length h1

/-- Claim C5: starting from a constructed group state, after any sequence
of window operations every buffer holds at most its type's configured
threshold of records; and pushing onto a buffer already at capacity evicts
the oldest record first (the result is the old buffer minus its head, plus
the new record at the end). -/
theorem c5_window_capacity (thresholds : List (String × Int)) (st0 st stA : GroupState)
    (ops : List WinOp) (t s : String) (seg : Seg) (b : Buffer)
    (hinit : GroupState.init thresholds = .ok st0)
    (hops : applyOps st0 ops = .ok st)
    (hb : alistGet stA.messages t = some b)
    (hfull : (b.records.length : Int) = b.maxlen)
    (hpos : 1 ≤ b.maxlen) :
    (∀ t' b', alistGet st.messages t' = some b' →
      alistGet thresholds t' = some b'.maxlen ∧
        (b'.records.length : Int) ≤ b'.maxlen) ∧
    stA.push_message t s seg =
      .ok { stA with messages := (alistSet stA.messages t
        { b with records := b.records.drop 1 ++ [{ send_id := s, seg := seg }] }) } := by
  constructor
  · intro t' b' hb'
    have hinv := capInv_applyOps thresholds ops st0 st (capInv_init thresholds st0 hinit) hops
    obtain ⟨h1, _, h3⟩ := hinv t' b' hb'
    exact ⟨h1, h3⟩
  · unfold GroupState.push_message
    rw [hb]
    dsimp only
    rw [dequeAppend_full b _ hfull hpos]

/-- Thresholds of the C5 scenario: text window capacity 2. -/
def thresholdsC5 : List (String × Int) := [("Plain", 2)]

/-- Freshly constructed state for the C5 scenario. -/
def stC5init : GroupState :=
  { messages := [("Plain", { maxlen := 2, records := [] })],
    last_repeated_fingerprint := none }

/-- Three pushes of distinct texts from distinct senders. -/
def opsC5 : List WinOp :=
  [.push "Plain" "A" (.plain "a"), .push "Plain" "B" (.plain "b"),
   .push "Plain" "C" (.plain "c")]

/-- The full buffer after the three pushes: the first record was evicted. -/
def bufC5 : Buffer :=
  { maxlen := 2,
    records := [{ send_id := "B", seg := .plain "b" },
                { send_id := "C", seg := .plain "c" }] }

/-- The state after the three pushes. -/
def stC5fin : GroupState :=
  { messages := [("Plain", bufC5)], last_repeated_fingerprint := none }

theorem c5_window_capacity_witness :
    (∀ t' b', alistGet stC5fin.messages t' = some b' →
      alistGet thresholdsC5 t' = some b'.maxlen ∧
        (b'.records.length : Int) ≤ b'.maxlen) ∧
    stC5fin.push_message "Plain" "D" (.plain "d") =
      .ok { stC5fin with messages := (alistSet stC5fin.messages "Plain"
        { bufC5 with records :=
            bufC5.records.drop 1 ++ [{ send_id := "D", seg := .plain "d" }] }) } :=
  c5_window_capacity thresholdsC5 stC5init stC5fin stC5fin opsC5 "Plain" "D"
    (.plain "d") bufC5 rfl rfl rfl rfl (by decide)

/-! ### C2 -/

/-- Every record in every buffer fingerprints (at its buffer's type) to F. -/
def buffersOnly (st : GroupState) (F : String) : Prop :=
  ∀ t b, alistGet st.messages t = some b →
    ∀ r ∈ b.records, make_fingerprint t r.seg = F

theorem buffersOnly_clear (st st1 : GroupState) (t s : String) (req : Bool) (F : String)
    (h : st.clear_if_same_sender t s req = .ok st1) (hinv : buffersOnly st F) :
    buffersOnly st1 F ∧ st1.last_repeated_fingerprint = st.last_repeated_fingerprint := by
  unfold GroupState.clear_if_same_sender at h
  cases req with
  | false => injection h with h'; subst h'; exact ⟨hinv, rfl⟩
  | true =>
    simp only [Bool.true_eq_false, if_false] at h
    cases hg : alistGet st.messages t with
    | none => rw [hg] at h; cases h
    | some b =>
      rw [hg] at h
      dsimp only at h
      cases hl : b.records.getLast? with
      | none => rw [hl] at h; injection h with h'; subst h'; exact ⟨hinv, rfl⟩
      | some r =>
        rw [hl] at h
        dsimp only at h
        by_cases hs : r.send_id = s
        · rw [if_pos hs] at h
          injection h with h'
          subst h'
          refine ⟨?_, rfl⟩
          intro t' b' hb' r' hr'
          rcases alistGet_alistSet_cases st.messages t t' _ b' hb' with ⟨ht, hbv⟩ | ⟨_, hgo⟩
          · subst hbv
            cases hr'
          · exact hinv t' b' hgo r' hr'
        · rw [if_neg hs] at h; injection h with h'; subst h'; exact ⟨hinv, rfl⟩

theorem buffersOnly_push (st st2 : GroupState) (t s : String) (seg : Seg) (F : String)
    (h : st.push_message t s seg = .ok st2) (hinv : buffersOnly st F)
    (hfp : make_fingerprint t seg = F) :
    buffersOnly st2 F ∧ st2.last_repeated_fingerprint = st.last_repeated_fingerprint := by
  unfold GroupState.push_message at h
  cases hg : alistGet st.messages t with
  | none => rw [hg] at h; cases h
  | some b =>
    rw [hg] at h
    dsimp only at h
    injection h with h'
    subst h'
    refine ⟨?_, rfl⟩
    intro t' b' hb' r' hr'
    rcases alistGet_alistSet_cases st.messages t t' _ b' hb' with ⟨ht, hbv⟩ | ⟨_, hgo⟩
    · subst ht
      subst hbv
      rcases mem_dequeAppend b.maxlen b.records _ r' hr' with hmem | hx
      · exact hinv t' b hg r' hmem
      · subst hx
        exact hfp
    · exact hinv t' b' hgo r' hr'

theorem buffersOnly_get (st : GroupState) (t : String) (l : List MsgRecord) (F : String)
    (h : st.get_messages t = .ok l) (hinv : buffersOnly st F) :
    ∀ r ∈ l, make_fingerprint t r.seg = F := by
  unfold GroupState.get_messages at h
  cases hg : alistGet st.messages t with
  | none => rw [hg] at h; cases h
  | some b =>
    rw [hg] at h
    injection h with h'
    subst h'
    exact hinv t b hg

theorem reread_no_retrigger_step (cfg : Config) (st : GroupState) (g s : String)
    (seg : Seg) (rng : Nat → Rat) (F : String) (st' : GroupState) (out : Option Seg)
    (k : Nat)
    (hlast : st.last_repeated_fingerprint = some F)
    (hinv : buffersOnly st F)
    (hfp : make_fingerprint (segTypeOf seg) seg = F)
    (h : reread_handle cfg st g s seg rng = .ok (st', out, k)) :
    out = none ∧ st'.last_repeated_fingerprint = some F ∧ buffersOnly st' F := by
  unfold reread_handle at h
  dsimp only at h
  by_cases hsupp : cfg.supported_type.contains (segTypeOf seg) = false
  · rw [if_pos hsupp] at h; cases h; exact ⟨rfl, hlast, hinv⟩
  · rw [if_neg hsupp] at h
    by_cases hwl : cfg.reread_group_whitelist ≠ [] ∧
        (cfg.reread_group_whitelist.contains g) = false
    · rw [if_pos hwl] at h; cases h; exact ⟨rfl, hlast, hinv⟩
    · rw [if_neg hwl] at h
      cases h1 : st.clear_if_same_sender (segTypeOf seg) s cfg.require_different_people with
      | error e => rw [h1, exceptErrBind] at h; cases h
      | ok st1 =>
        rw [h1, exceptOkBind] at h
        obtain ⟨hi1, hl1⟩ := buffersOnly_clear st st1 _ s _ F h1 hinv
        cases h2 : st1.push_message (segTypeOf seg) s seg with
        | error e => rw [h2, exceptErrBind] at h; cases h
        | ok st2 =>
          rw [h2, exceptOkBind] at h
          obtain ⟨hi2, hl2⟩ := buffersOnly_push st1 st2 _ s seg F h2 hi1 hfp
          have hl2f : st2.last_repeated_fingerprint = some F := by
            rw [hl2, hl1, hlast]
          cases h3 : st2.get_messages (segTypeOf seg) with
          | error e => rw [h3, exceptErrBind] at h; cases h
          | ok l =>
            rw [h3, exceptOkBind] at h
            have hmemfp := buffersOnly_get st2 (segTypeOf seg) l F h3 hi2
            cases h4 : can_repeat cfg.thresholds (segTypeOf seg) l with
            | error e => rw [h4, exceptErrBind] at h; cases h
            | ok can =>
              rw [h4, exceptOkBind] at h
              by_cases hcan : can = false
              · rw [if_pos hcan] at h; cases h; exact ⟨rfl, hl2f, hi2⟩
              · rw [if_neg hcan] at h
                cases l with
                | nil => simp only [exceptErrBind] at h; cases h
                | cons m0 rest =>
                  simp only [exceptOkBind] at h
                  have hm0 : make_fingerprint (segTypeOf seg) m0.seg = F :=
                    hmemfp m0 (List.mem_cons_self _ _)
                  have hsame : st2.is_same_as_last_repeat
                      (make_fingerprint (segTypeOf seg) m0.seg) = true := by
                    simp [GroupState.is_same_as_last_repeat, hl2f, hm0]
                  rw [if_pos hsame] at h
                  cases h
                  exact ⟨rfl, hl2f, hi2⟩

theorem feed_all_no_retrigger (cfg : Config) (F : String) :
    ∀ (msgs : List (String × String × Seg × (Nat → Rat))) (st stF : GroupState)
      (outs : List Seg),
      st.last_repeated_fingerprint = some F → buffersOnly st F →
      (∀ x ∈ msgs, make_fingerprint (segTypeOf x.2.2.1) x.2.2.1 = F) →
      feed_all cfg st msgs = .ok (stF, outs) →
      outs = [] ∧ stF.last_repeated_fingerprint = some F
  | [], st, stF, outs, hlast, hinv, hfp, h => by
    unfold feed_all at h
    injection h with h'
    injection h' with h1 h2
    subst h1
    subst h2
    exact ⟨rfl, hlast⟩
  | (g, s, seg, rng) :: rest, st, stF, outs, hlast, hinv, hfp, h => by
    unfold feed_all at h
    cases h1 : reread_handle cfg st g s seg rng with
    | error e => rw [h1, exceptErrBind] at h; cases h
    | ok res =>
      obtain ⟨st1, out, k⟩ := res
      rw [h1, exceptOkBind] at h
      dsimp only at h
      obtain ⟨ho, hl1, hi1⟩ := reread_no_retrigger_step cfg st g s seg rng F st1 out k
        hlast hinv (hfp _ (List.mem_cons_self _ _)) h1
      subst ho
      cases h2 : feed_all cfg st1 rest with
      | error e => rw [h2, exceptErrBind] at h; cases h
      | ok res2 =>
        obtain ⟨stF2, outs2⟩ := res2
        rw [h2, exceptOkBind] at h
        have hrec := feed_all_no_retrigger cfg F rest st1 stF2 outs2 hl1 hi1
          (fun x hx => hfp x (List.mem_cons_of_mem _ hx)) h2
        cases h
        simpa using hrec

/-- Claim C2: immediately after a trigger with fingerprint F (all buffers
cleared, last triggered fingerprint = F), feeding any further messages
whose fingerprints all equal F — in particular threshold-many of them —
triggers nothing for any values of the random draws, and the last
triggered fingerprint remains F throughout. -/
theorem c2_no_retrigger_same_fingerprint (cfg : Config) (st stF : GroupState)
    (F : String) (msgs : List (String × String × Seg × (Nat → Rat))) (outs : List Seg)
    (hlast : st.last_repeated_fingerprint = some F)
    (hempty : ∀ t b, alistGet st.messages t = some b → b.records = [])
    (hfp : ∀ x ∈ msgs, make_fingerprint (segTypeOf x.2.2.1) x.2.2.1 = F)
    (h : feed_all cfg st msgs = .ok (stF, outs)) :
    outs = [] ∧ stF.last_repeated_fingerprint = some F :=
  feed_all_no_retrigger cfg F msgs st stF outs hlast
    (fun t b hb r hr => absurd (hempty t b hb ▸ hr) (List.not_mem_nil r)) hfp h

/-- The state right after the scenario trigger: buffers cleared, last
triggered fingerprint "text:hi". -/
def stAfterTrigger : GroupState :=
  { messages := [("Plain", { maxlen := 3, records := [] })],
    last_repeated_fingerprint := some "text:hi" }

/-- Threshold-many (three) further "hi" messages from new senders. -/
def msgsC2 : List (String × String × Seg × (Nat → Rat)) :=
  [("g", "D", .plain "hi", fun _ => 0), ("g", "E", .plain "hi", fun _ => 0),
   ("g", "F", .plain "hi", fun _ => 0)]

/-- The state after re-feeding the three "hi" messages: the window refilled
but nothing triggered. -/
def stRefilled : GroupState :=
  { messages := [("Plain",
      { maxlen := 3,
        records := [{ send_id := "D", seg := .plain "hi" },
                    { send_id := "E", seg := .plain "hi" },
                    { send_id := "F", seg := .plain "hi" }] })],
    last_repeated_fingerprint := some "text:hi" }

theorem c2_no_retrigger_same_fingerprint_witness :
    ([] : List Seg) = [] ∧ stRefilled.last_repeated_fingerprint = some "text:hi" :=
  c2_no_retrigger_same_fingerprint cfgW stAfterTrigger stRefilled "text:hi" msgsC2 []
    rfl
    (by
      intro t b hb
      by_cases ht : "Plain" = t
      · subst ht
        injection hb with hb'
        rw [← hb']
      · simp [stAfterTrigger, alistGet, ht] at hb)
    (by
      intro x hx
      simp only [msgsC2, List.mem_cons, List.not_mem_nil, or_false] at hx
      rcases hx with rfl | rfl | rfl <;> rfl)
    rfl
